import Mathlib

/-!
Verification of `src/lab02/currency_exchange_rate.py` against its
natural-language specification.

Modelling conventions for the shallow embedding:

* A calendar datetime produced by `parse_date` is always a midnight
  `datetime`; `evenly_spaced_dates` only ever adds a whole number of days to
  it, and the final deduplication is by calendar date.  A datetime is
  therefore embedded as its proleptic-Gregorian ordinal day number, an `ℤ`
  (Python's `date.toordinal`), and `(end - start).days` becomes plain integer
  subtraction.
* Python's `round` is applied to the real number `i * (delta / (n-1))`.  The
  embedding computes this value exactly in `ℚ` and rounds with Python's
  round-half-to-even rule (`pyRound`).  (CPython evaluates the expression in
  binary floating point; for every representable date range the float value
  rounds to the same integer, and the theorems below use only monotonicity
  of the rounded offsets together with the endpoint forcing done by the
  code itself.)
* `raise SystemExit(msg)` is embedded as `Except.error`; the error classes of
  the spec's taxonomy tag the individual raise sites.
* Strings are Lean `String`s; Python's `str.strip`, `str.upper`,
  `str.isalpha` and `\d` in `re` are modelled on the ASCII fragment.
-/

/-- Python's `round` for a rational argument: round to the nearest integer,
ties to the even neighbour (banker's rounding), as used at line 94 of the
source (`round(i * step)`). -/
def pyRound (x : ℚ) : ℤ :=
  if x - ⌊x⌋ < 1/2 then ⌊x⌋
  else if 1/2 < x - ⌊x⌋ then ⌊x⌋ + 1
  else if ⌊x⌋ % 2 = 0 then ⌊x⌋ else ⌊x⌋ + 1

/-- The deduplication loop of `evenly_spaced_dates` (lines 99–104): walk the
list keeping each date not yet in `seen`, first occurrence wins. -/
def pyDedup (seen : List ℤ) : List ℤ → List ℤ
  | [] => []
  | d :: rest => if d ∈ seen then pyDedup seen rest else d :: pyDedup (d :: seen) rest

/-- `evenly_spaced_dates(start, end, n)` (lines 83–105).  Dates are ordinal
day numbers; `n` is a Python `int`.  The guard order, the `n == 2`
short-circuit, the per-index rounding, the forced overwrite of the first and
last slot, and the final dedup all mirror the source. -/
def evenly_spaced_dates (start end_ : ℤ) (n : ℤ) : Except String (List ℤ) :=
  if n < 2 then .error "num-dates must be >= 2"
  else
    let delta_days : ℤ := end_ - start
    if delta_days < 0 then .error "end-date must be on or after start-date"
    else if n = 2 then .ok [start, end_]
    else
      let step : ℚ := (delta_days : ℚ) / ((n : ℚ) - 1)
      let ds := (List.range n.toNat).map (fun (i : ℕ) => start + pyRound ((i : ℚ) * step))
      let ds := ds.set 0 start
      let ds := ds.set (n.toNat - 1) end_
      .ok (pyDedup [] ds)

/-- Value of an ASCII digit character. -/
def dv (c : Char) : ℕ := c.toNat - 48

/-- The ASCII digit character for `k ≤ 9`. -/
def digitChar (k : ℕ) : Char := Char.ofNat (48 + k)

/-- ASCII digit predicate, the model of `\d` in the compiled `strptime`
format regex (Unicode digits are outside the embedding). -/
def isDig (c : Char) : Prop := 48 ≤ c.toNat ∧ c.toNat ≤ 57

instance (c : Char) : Decidable (isDig c) := inferInstanceAs (Decidable (_ ∧ _))

/-- A parsed calendar date, the embedding of the `datetime` values produced by
`parse_date` (always midnight, so only year/month/day matter). -/
structure Date where
  year : ℕ
  month : ℕ
  day : ℕ
deriving DecidableEq

/-- Gregorian leap-year rule used by `datetime`. -/
def isLeap (y : ℕ) : Bool := (y % 4 == 0 && y % 100 != 0) || (y % 400 == 0)

/-- Number of days of month `m` in year `y` (as in `datetime`). -/
def daysInMonth (y m : ℕ) : ℕ :=
  if m = 2 then (if isLeap y then 29 else 28)
  else if m = 4 ∨ m = 6 ∨ m = 9 ∨ m = 11 then 30
  else 31

/-- The validity check of the `datetime.datetime` constructor: year within
`MINYEAR..MAXYEAR`, month within `1..12`, day within the month. -/
def validDate (y m d : ℕ) : Bool :=
  decide (1 ≤ y) && decide (y ≤ 9999) && decide (1 ≤ m) && decide (m ≤ 12) &&
  decide (1 ≤ d) && decide (d ≤ daysInMonth y m)

/-- Days in year `y` strictly before month `m`. -/
def daysBeforeMonth (y m : ℕ) : ℕ :=
  ((List.range (m - 1)).map (fun i => daysInMonth y (i + 1))).sum

/-- Python's `date.toordinal`: day number in the proleptic Gregorian calendar
with `0001-01-01 ↦ 1`.  Differences of these ordinals are exactly
`(end - start).days` for midnight datetimes. -/
def Date.toordinal (dt : Date) : ℤ :=
  let y1 : ℤ := (dt.year : ℤ) - 1
  365 * y1 + y1 / 4 - y1 / 100 + y1 / 400 + (daysBeforeMonth dt.year dt.month : ℤ) + (dt.day : ℤ)

/-- The month field of CPython's compiled `%m` regex,
`(?P<m>1[0-2]|0[1-9]|[1-9])`, with the regex-engine alternation order made
deterministic (legitimate because the field is always followed by `-`, which
no two-character alternative can end in — so backtracking never changes the
outcome).  Returns the month value and the unconsumed input. -/
def monthTok : List Char → Option (ℕ × List Char)
  | c1 :: c2 :: rest =>
      if c1.toNat = 49 ∧ 48 ≤ c2.toNat ∧ c2.toNat ≤ 50 then some (10 + dv c2, rest)
      else if c1.toNat = 48 ∧ 49 ≤ c2.toNat ∧ c2.toNat ≤ 57 then some (dv c2, rest)
      else if 49 ≤ c1.toNat ∧ c1.toNat ≤ 57 then some (dv c1, c2 :: rest)
      else none
  | [c1] => if 49 ≤ c1.toNat ∧ c1.toNat ≤ 57 then some (dv c1, []) else none
  | [] => none

/-- The day field of CPython's compiled `%d` regex,
`(?P<d>3[01]|[12]\d|0[1-9]|[1-9])`, deterministic for the same reason (after
the day the pattern ends, and the leftover-input check is outside the
regex, so no backtracking on it occurs). -/
def dayTok : List Char → Option (ℕ × List Char)
  | c1 :: c2 :: rest =>
      if c1.toNat = 51 ∧ 48 ≤ c2.toNat ∧ c2.toNat ≤ 49 then some (30 + dv c2, rest)
      else if (49 ≤ c1.toNat ∧ c1.toNat ≤ 50) ∧ isDig c2 then some (10 * dv c1 + dv c2, rest)
      else if c1.toNat = 48 ∧ 49 ≤ c2.toNat ∧ c2.toNat ≤ 57 then some (dv c2, rest)
      else if 49 ≤ c1.toNat ∧ c1.toNat ≤ 57 then some (dv c1, c2 :: rest)
      else none
  | [c1] => if 49 ≤ c1.toNat ∧ c1.toNat ≤ 57 then some (dv c1, []) else none
  | [] => none

/-- `datetime.strptime(s, "%Y-%m-%d")` up to (but not including) the
constructor validity check: `%Y` is exactly four digits, the two literal
dashes must match, the whole input must be consumed. -/
def strptimeYmd : List Char → Option (ℕ × ℕ × ℕ)
  | c1 :: c2 :: c3 :: c4 :: c5 :: rest =>
      if isDig c1 ∧ isDig c2 ∧ isDig c3 ∧ isDig c4 ∧ c5 = '-' then
        match monthTok rest with
        | some (m, c6 :: rest2) =>
            if c6 = '-' then
              match dayTok rest2 with
              | some (d, []) =>
                  some (1000 * dv c1 + 100 * dv c2 + 10 * dv c3 + dv c4, m, d)
              | _ => none
            else none
        | _ => none
      else none
  | _ => none

/-- `parse_date(date_str, field)` (lines 76–80): `strptime` then the
`datetime` constructor check; any failure becomes the one `SystemExit`
message (spec class `InvalidArgument`). -/
def parse_date (date_str : String) (field : String) : Except String Date :=
  match strptimeYmd date_str.data with
  | some (y, m, d) =>
      if validDate y m d then .ok ⟨y, m, d⟩
      else .error (field ++ " must be in YYYY-MM-DD format (got " ++ date_str ++ ").")
  | none => .error (field ++ " must be in YYYY-MM-DD format (got " ++ date_str ++ ").")

/-- Four-digit zero-padded decimal rendering (of `k % 10000`). -/
def pad4 (k : ℕ) : List Char :=
  [digitChar (k / 1000 % 10), digitChar (k / 100 % 10), digitChar (k / 10 % 10), digitChar (k % 10)]

/-- Two-digit zero-padded decimal rendering (of `k % 100`). -/
def pad2 (k : ℕ) : List Char := [digitChar (k / 10 % 10), digitChar (k % 10)]

/-- The spellings of a month or day number accepted by `%m`/`%d`: one digit
(for values below ten) or two digits with a leading zero where needed. -/
def numForms (k : ℕ) : List (List Char) :=
  if k < 10 then [[digitChar k], ['0', digitChar k]]
  else [[digitChar (k / 10), digitChar (k % 10)]]

/-- Modelled from the claim's words: strict `YYYY-MM-DD` format — a four-digit
year, a two-digit zero-padded month and day (and the whole a valid calendar
date).  Used only to compare `parse_date` against the claimed contract. -/
def strictYMD (s : String) : Bool :=
  match s.data with
  | [y1, y2, y3, y4, h1, m1, m2, h2, d1, d2] =>
      (h1 == '-') && (h2 == '-') &&
      decide (isDig y1) && decide (isDig y2) && decide (isDig y3) && decide (isDig y4) &&
      decide (isDig m1) && decide (isDig m2) && decide (isDig d1) && decide (isDig d2) &&
      validDate (1000 * dv y1 + 100 * dv y2 + 10 * dv y3 + dv y4)
        (10 * dv m1 + dv m2) (10 * dv d1 + dv d2)
  | _ => false

/-- Python `str.strip()` on the ASCII fragment. -/
def pyStrip (s : String) : String :=
  ⟨((s.data.dropWhile Char.isWhitespace).reverse.dropWhile Char.isWhitespace).reverse⟩

/-- Python `str.upper()` on the ASCII fragment. -/
def pyUpper (s : String) : String := ⟨s.data.map Char.toUpper⟩

/-- Python `str.isalpha()` on the ASCII fragment: nonempty and all letters. -/
def pyIsAlpha (s : String) : Bool := !s.data.isEmpty && s.data.all Char.isAlpha

/-- `validate_currency(code, field)` (lines 67–73): empty check on the raw
input, then strip + uppercase, then the 3-letter check. -/
def validate_currency (code : String) (field : String) : Except String String :=
  if code = "" then .error (field ++ " currency is required.")
  else
    let c := pyUpper (pyStrip code)
    if c.length ≠ 3 ∨ pyIsAlpha c = false then
      .error (field ++ " must be a 3-letter code (got " ++ c ++ ").")
    else .ok c

/-- JSON values as decoded by `resp.json()`. -/
inductive Json where
  | null
  | bool (b : Bool)
  | num (q : ℚ)
  | str (s : String)
  | arr (items : List Json)
  | obj (fields : List (String × Json))

/-- Python truthiness of a decoded JSON value (`if err:`). -/
def pyTruthy : Json → Bool
  | .null => false
  | .bool b => b
  | .num q => decide (q ≠ 0)
  | .str s => decide (s ≠ "")
  | .arr items => !items.isEmpty
  | .obj fields => !fields.isEmpty

/-- Python `dict.get`: first binding of the key, `None` when absent. -/
def dictGet (fields : List (String × Json)) (k : String) : Option Json :=
  match fields with
  | [] => none
  | (k2, v) :: rest => if k2 = k then some v else dictGet rest k

/-- The spec's error taxonomy; in the source every case is a `SystemExit`,
raised at the indicated lines of `call_service` and the validators. -/
inductive Err where
  | invalidArgument (msg : String)
  | networkError (msg : String)
  | httpError (status : ℕ) (details : String)
  | protocolError (msg : String)
  | serviceError (err : Json)

/-- What `requests.post` handed back: transport success flag (`resp.ok`),
status code, body text, and the body decoded as JSON (`none` when the body is
not valid JSON). -/
structure HttpResponse where
  ok : Bool
  status : ℕ
  text : String
  json : Option Json

/-- Outcome of the one network call: a `requests.RequestException`, or a
response. -/
inductive HttpOutcome where
  | exn (msg : String)
  | resp (r : HttpResponse)

/-- `call_service(url, api_key)` (lines 122–144) as a function of the
observed network outcome: network error, HTTP status check, JSON decode
check, envelope-shape check, then the service `error` field (Python
truthiness via `dict.get`); on success the payload is returned unchanged. -/
def call_service (url api_key : String) (outcome : HttpOutcome) : Except Err Json :=
  match outcome with
  | .exn msg => .error (.networkError ("Network error: " ++ msg))
  | .resp r =>
      if r.ok = false then .error (.httpError r.status r.text)
      else
        match r.json with
        | none => .error (.protocolError "Invalid JSON response from service.")
        | some payload =>
            match payload with
            | .obj fields =>
                match dictGet fields "error" with
                | some err => if pyTruthy err then .error (.serviceError err) else .ok payload
                | none => .ok payload
            | _ => .error (.protocolError "Unexpected payload structure.")

/-- Python `str.rstrip("/")`. -/
def rstrip_slash (s : String) : String :=
  ⟨(s.data.reverse.dropWhile (fun c => c = '/')).reverse⟩

/-- Python `str.lstrip("/")`. -/
def lstrip_slash (s : String) : String := ⟨s.data.dropWhile (fun c => c = '/')⟩

/-- `build_url(base_url, from_cur, to_cur, date_str)` (lines 115–119). -/
def build_url (base_url from_cur to_cur : String) (date_str : Option String) : String :=
  let q := "?from=" ++ from_cur ++ "&to=" ++ to_cur
  let q := match date_str with
    | some d => if d = "" then q else q ++ "&date=" ++ d
    | none => q
  rstrip_slash base_url ++ "/" ++ lstrip_slash q

/-- File name written by `save_json` (line 149). -/
def save_fname (from_cur to_cur date_str : String) : String :=
  from_cur ++ "_" ++ to_cur ++ "_" ++ date_str ++ ".json"

/-- `run_one` (lines 156–166) with its file-system effect made explicit: the
second component lists the `(file name, payload)` writes performed (the
single `save_json` call, reached only after `call_service` succeeds).  The
`warn_range` flag only prints and affects nothing else. -/
def run_one (from_cur to_cur date_str base_url api_key : String) (warn_range : Bool)
    (outcome : HttpOutcome) : Except Err Unit × List (String × Json) :=
  match validate_currency from_cur "From" with
  | .error msg => (.error (.invalidArgument msg), [])
  | .ok f =>
  match validate_currency to_cur "To" with
  | .error msg => (.error (.invalidArgument msg), [])
  | .ok t =>
  match parse_date date_str "date" with
  | .error msg => (.error (.invalidArgument msg), [])
  | .ok _ =>
  match call_service (build_url base_url f t (some date_str)) api_key outcome with
  | .error e => (.error e, [])
  | .ok payload => (.ok (), [(save_fname f t date_str, payload)])

/-- Inverse of `Date.toordinal` (used by `d.strftime` in the batch loop);
Howard Hinnant's civil-from-days computation shifted to ordinal day numbers.
Only evaluated on ordinals of valid dates, where all divisions are of
nonnegative numbers. -/
def Date.fromordinal (k : ℤ) : Date :=
  let z := k - 719163 + 719468
  let era := z / 146097
  let doe := z % 146097
  let yoe := (doe - doe / 1460 + doe / 36524 - doe / 146096) / 365
  let y := yoe + era * 400
  let doy := doe - (365 * yoe + yoe / 4 - yoe / 100)
  let mp := (5 * doy + 2) / 153
  let d := doy - (153 * mp + 2) / 5 + 1
  let m := if mp < 10 then mp + 3 else mp - 9
  ⟨(y + (if m ≤ 2 then 1 else 0)).toNat, m.toNat, d.toNat⟩

/-- `d.strftime("%Y-%m-%d")` for a midnight datetime with the given ordinal. -/
def format_date (k : ℤ) : String :=
  let dt := Date.fromordinal k
  ⟨pad4 dt.year ++ '-' :: (pad2 dt.month ++ '-' :: pad2 dt.day)⟩

/-- The batch branch of `main` (lines 172–183) after the argument-presence
check: parse the two dates, sample, then run the per-date pipeline for every
sampled date, recording each outcome (`except SystemExit` catches per-date
failures, so the loop always continues and the process ends with exit code
zero, modelled by `.ok`).  `oracle i` is the network outcome observed by the
`i`-th request. -/
def main_batch (from_cur to_cur start_date end_date : String) (num_dates : ℤ)
    (base_url api_key : String) (warn_range : Bool) (oracle : ℕ → HttpOutcome) :
    Except Err (List (ℤ × (Except Err Unit × List (String × Json)))) :=
  match parse_date start_date "start-date" with
  | .error msg => .error (.invalidArgument msg)
  | .ok s =>
  match parse_date end_date "end-date" with
  | .error msg => .error (.invalidArgument msg)
  | .ok e =>
  match evenly_spaced_dates s.toordinal e.toordinal num_dates with
  | .error msg => .error (.invalidArgument msg)
  | .ok dates =>
      .ok ((dates.enum).map (fun p =>
        (p.2, run_one from_cur to_cur (format_date p.2) base_url api_key warn_range (oracle p.1))))

theorem floor_le_pyRound (x : ℚ) : ⌊x⌋ ≤ pyRound x := by
  unfold pyRound; split_ifs <;> omega

theorem pyRound_le_floor_add_one (x : ℚ) : pyRound x ≤ ⌊x⌋ + 1 := by
  unfold pyRound; split_ifs <;> omega

theorem pyRound_mono {x y : ℚ} (h : x ≤ y) : pyRound x ≤ pyRound y := by
  rcases lt_or_le ⌊x⌋ ⌊y⌋ with hf | hf
  · have h1 := pyRound_le_floor_add_one x
    have h2 := floor_le_pyRound y
    omega
  · have hfe : ⌊x⌋ = ⌊y⌋ := le_antisymm (Int.floor_le_floor h) hf
    have hfr : x - ⌊x⌋ ≤ y - ⌊y⌋ := by rw [hfe]; linarith
    unfold pyRound
    rw [hfe]
    split_ifs <;> first | omega | linarith

theorem pyRound_intCast (k : ℤ) : pyRound (k : ℚ) = k := by
  unfold pyRound
  rw [Int.floor_intCast]
  simp

theorem pyRound_nonneg {x : ℚ} (h : 0 ≤ x) : 0 ≤ pyRound x :=
  le_trans (Int.le_floor.mpr (by exact_mod_cast h)) (floor_le_pyRound x)

theorem pyRound_le_of_le_intCast {x : ℚ} {k : ℤ} (h : x ≤ (k : ℚ)) :
    pyRound x ≤ k := by
  have := pyRound_mono h
  rwa [pyRound_intCast] at this

theorem pyDedup_subset {x : ℤ} : ∀ {l seen : List ℤ}, x ∈ pyDedup seen l → x ∈ l := by
  intro l
  induction l with
  | nil => intro seen h; simp [pyDedup] at h
  | cons d rest ih =>
      intro seen h
      unfold pyDedup at h
      split_ifs at h with hd
      · exact List.mem_cons_of_mem _ (ih h)
      · rcases List.mem_cons.mp h with h | h
        · exact h ▸ List.mem_cons_self _ _
        · exact List.mem_cons_of_mem _ (ih h)

theorem pyDedup_not_mem_seen {x : ℤ} :
    ∀ {l seen : List ℤ}, x ∈ pyDedup seen l → x ∉ seen := by
  intro l
  induction l with
  | nil => intro seen h; simp [pyDedup] at h
  | cons d rest ih =>
      intro seen h
      unfold pyDedup at h
      split_ifs at h with hd
      · exact ih h
      · rcases List.mem_cons.mp h with h | h
        · exact h ▸ hd
        · intro hs
          exact ih h (List.mem_cons_of_mem _ hs)

theorem mem_pyDedup {x : ℤ} :
    ∀ {l seen : List ℤ}, x ∈ l → x ∉ seen → x ∈ pyDedup seen l := by
  intro l
  induction l with
  | nil => intro seen h _; simp at h
  | cons d rest ih =>
      intro seen h hs
      unfold pyDedup
      by_cases hx : x = d
      · subst hx
        rw [if_neg hs]
        exact List.mem_cons_self _ _
      · have hr : x ∈ rest := by
          rcases List.mem_cons.mp h with h | h
          · exact absurd h hx
          · exact h
        split_ifs with hd
        · exact ih hr hs
        · exact List.mem_cons_of_mem _
            (ih hr (by simp [hx, hs]))

theorem pyDedup_length_le : ∀ (l seen : List ℤ), (pyDedup seen l).length ≤ l.length := by
  intro l
  induction l with
  | nil => intro seen; simp [pyDedup]
  | cons d rest ih =>
      intro seen
      unfold pyDedup
      split_ifs
      · exact le_trans (ih seen) (Nat.le_succ _)
      · simpa using ih (d :: seen)

theorem pyDedup_pairwise_lt :
    ∀ {l : List ℤ} (seen : List ℤ), l.Pairwise (· ≤ ·) →
      (pyDedup seen l).Pairwise (· < ·) := by
  intro l
  induction l with
  | nil => intro seen _; simp [pyDedup]
  | cons d rest ih =>
      intro seen hp
      rcases List.pairwise_cons.mp hp with ⟨hd, hrest⟩
      unfold pyDedup
      split_ifs with hseen
      · exact ih seen hrest
      · refine List.pairwise_cons.mpr ⟨?_, ih (d :: seen) hrest⟩
        intro y hy
        have hle : d ≤ y := hd y (pyDedup_subset hy)
        have hne : y ≠ d := by
          intro hEq
          exact pyDedup_not_mem_seen hy (hEq ▸ List.mem_cons_self _ _)
        exact lt_of_le_of_ne hle (Ne.symm hne)

theorem list_set_self {α : Type} :
    ∀ (l : List α) (i : ℕ) (a : α), l[i]? = some a → l.set i a = l := by
  intro l
  induction l with
  | nil => intro i a h; simp at h
  | cons x xs ih =>
      intro i a h
      cases i with
      | zero => simp at h; simp [h]
      | succ j =>
          simp only [List.getElem?_cons_succ] at h
          simp [ih j a h]

/-- On the `n ≥ 3` branch the two forced writes `ds[0] = start`, `ds[-1] = end`
are identities (the rounded offsets at the endpoints are already exact), so the
result is the dedup of the plain rounded-offset list. -/
theorem evenly_spaced_dates_eq_map (s e n : ℤ) (h3 : 3 ≤ n) (hse : s ≤ e) :
    evenly_spaced_dates s e n =
      .ok (pyDedup [] ((List.range n.toNat).map
        (fun (i : ℕ) => s + pyRound ((i : ℚ) * (((e - s : ℤ) : ℚ) / ((n : ℚ) - 1)))))) := by
  have hn2 : ¬ n < 2 := by omega
  have hd : ¬ e - s < 0 := by omega
  have hne2 : ¬ n = 2 := by omega
  have hnn : (n.toNat : ℤ) = n := Int.toNat_of_nonneg (by omega)
  have hpos : 0 < n.toNat := by omega
  have hne0 : (n : ℚ) - 1 ≠ 0 := by
    have h3q : (3 : ℚ) ≤ (n : ℚ) := by exact_mod_cast h3
    intro hc; linarith
  set f : ℕ → ℤ :=
    fun (i : ℕ) => s + pyRound ((i : ℚ) * (((e - s : ℤ) : ℚ) / ((n : ℚ) - 1))) with hfdef
  have hf0 : f 0 = s := by
    have hz := pyRound_intCast 0
    rw [Int.cast_zero] at hz
    simp [hfdef, hz]
  have hflast : f (n.toNat - 1) = e := by
    have hcast : ((n.toNat - 1 : ℕ) : ℚ) = (n : ℚ) - 1 := by
      rw [Nat.cast_sub (by omega : 1 ≤ n.toNat), Nat.cast_one]
      congr 1
      exact_mod_cast hnn
    have hmul : ((n : ℚ) - 1) * (((e - s : ℤ) : ℚ) / ((n : ℚ) - 1)) = ((e - s : ℤ) : ℚ) := by
      rw [mul_comm, div_mul_cancel₀ _ hne0]
    simp only [hfdef, hcast, hmul, pyRound_intCast]
    omega
  have h0 : ((List.range n.toNat).map f)[0]? = some s := by
    rw [List.getElem?_map, List.getElem?_range hpos]
    simp [hf0]
  have hlast : ((List.range n.toNat).map f)[n.toNat - 1]? = some e := by
    rw [List.getElem?_map, List.getElem?_range (by omega : n.toNat - 1 < n.toNat)]
    simp [hflast]
  simp only [evenly_spaced_dates, if_neg hn2, if_neg hd, if_neg hne2]
  rw [list_set_self _ _ _ h0, list_set_self _ _ _ hlast]

/-- The rounded-offset list is nondecreasing, and each entry lies in `[s, e]`. -/
theorem sampled_list_facts (s e n : ℤ) (h3 : 3 ≤ n) (hse : s ≤ e) :
    (((List.range n.toNat).map
        (fun (i : ℕ) => s + pyRound ((i : ℚ) * (((e - s : ℤ) : ℚ) / ((n : ℚ) - 1))))).Pairwise (· ≤ ·))
      ∧ (∀ x ∈ (List.range n.toNat).map
          (fun (i : ℕ) => s + pyRound ((i : ℚ) * (((e - s : ℤ) : ℚ) / ((n : ℚ) - 1)))),
            s ≤ x ∧ x ≤ e) := by
  have hnn : (n.toNat : ℤ) = n := Int.toNat_of_nonneg (by omega)
  have h3q : (3 : ℚ) ≤ (n : ℚ) := by exact_mod_cast h3
  have hstep : 0 ≤ (((e - s : ℤ) : ℚ) / ((n : ℚ) - 1)) := by
    apply div_nonneg
    · exact_mod_cast sub_nonneg.mpr hse
    · linarith
  constructor
  · refine List.Pairwise.map _ ?_ (List.pairwise_lt_range n.toNat)
    intro a b hab
    have : (a : ℚ) ≤ (b : ℚ) := by exact_mod_cast Nat.le_of_lt hab
    have := pyRound_mono (mul_le_mul_of_nonneg_right this hstep)
    omega
  · intro x hx
    rcases List.mem_map.mp hx with ⟨i, hi, rfl⟩
    have hiN : i < n.toNat := List.mem_range.mp hi
    have hnonneg : 0 ≤ (i : ℚ) * (((e - s : ℤ) : ℚ) / ((n : ℚ) - 1)) :=
      mul_nonneg (Nat.cast_nonneg i) hstep
    have hub : (i : ℚ) * (((e - s : ℤ) : ℚ) / ((n : ℚ) - 1)) ≤ ((e - s : ℤ) : ℚ) := by
      have hile : (i : ℚ) ≤ (n : ℚ) - 1 := by
        have : (i : ℤ) ≤ n - 1 := by omega
        have h2 : ((i : ℤ) : ℚ) ≤ ((n - 1 : ℤ) : ℚ) := by exact_mod_cast this
        push_cast at h2 ⊢
        linarith
      calc (i : ℚ) * (((e - s : ℤ) : ℚ) / ((n : ℚ) - 1))
          ≤ ((n : ℚ) - 1) * (((e - s : ℤ) : ℚ) / ((n : ℚ) - 1)) :=
            mul_le_mul_of_nonneg_right hile hstep
        _ = ((e - s : ℤ) : ℚ) := by
            rw [mul_comm, div_mul_cancel₀]
            intro hc; linarith
    have hlo : 0 ≤ pyRound ((i : ℚ) * (((e - s : ℤ) : ℚ) / ((n : ℚ) - 1))) :=
      pyRound_nonneg hnonneg
    have hhi : pyRound ((i : ℚ) * (((e - s : ℤ) : ℚ) / ((n : ℚ) - 1))) ≤ e - s :=
      pyRound_le_of_le_intCast hub
    omega

/-- The first and last entries of the rounded-offset list are exactly the two
endpoints (the offsets `0` and `delta` round to themselves). -/
theorem sampled_mem_endpoints (s e n : ℤ) (h3 : 3 ≤ n) :
    s ∈ (List.range n.toNat).map
        (fun (i : ℕ) => s + pyRound ((i : ℚ) * (((e - s : ℤ) : ℚ) / ((n : ℚ) - 1))))
    ∧ e ∈ (List.range n.toNat).map
        (fun (i : ℕ) => s + pyRound ((i : ℚ) * (((e - s : ℤ) : ℚ) / ((n : ℚ) - 1)))) := by
  constructor
  · refine List.mem_map.mpr ⟨0, List.mem_range.mpr (by omega), ?_⟩
    have hz := pyRound_intCast 0
    rw [Int.cast_zero] at hz
    simp [hz]
  · refine List.mem_map.mpr ⟨n.toNat - 1, List.mem_range.mpr (by omega), ?_⟩
    have hnn : (n.toNat : ℤ) = n := Int.toNat_of_nonneg (by omega)
    have hne0 : (n : ℚ) - 1 ≠ 0 := by
      have h3q : (3 : ℚ) ≤ (n : ℚ) := by exact_mod_cast h3
      intro hc; linarith
    have hcast : ((n.toNat - 1 : ℕ) : ℚ) = (n : ℚ) - 1 := by
      rw [Nat.cast_sub (by omega : 1 ≤ n.toNat), Nat.cast_one]
      congr 1
      exact_mod_cast hnn
    have hmul : ((n : ℚ) - 1) * (((e - s : ℤ) : ℚ) / ((n : ℚ) - 1)) = ((e - s : ℤ) : ℚ) := by
      rw [mul_comm, div_mul_cancel₀ _ hne0]
    simp only [hcast, hmul, pyRound_intCast]
    omega

/-- The `n == 2` short-circuit (lines 89–90), shared by several claims. -/
theorem evenly_spaced_dates_n2 (s e : ℤ) (hse : s ≤ e) :
    evenly_spaced_dates s e 2 = .ok [s, e] := by
  simp only [evenly_spaced_dates]
  rw [if_neg (by omega : ¬ (2:ℤ) < 2), if_neg (by omega : ¬ e - s < 0), if_pos trivial]

/-- Claim C1 (amended): for start ≤ end and n ≥ 2, except in the single case
start = end with n = 2 (where the short-circuit returns the duplicated pair
`[start, start]`), the sampler's output is strictly ascending, contains start
and end, has at most n entries, and has no duplicates. -/
theorem evenly_spaced_dates_props (s e n : ℤ) (hse : s ≤ e) (hn : 2 ≤ n)
    (hx : ¬(s = e ∧ n = 2)) :
    ∃ l, evenly_spaced_dates s e n = Except.ok l ∧ l.Pairwise (· < ·) ∧
      s ∈ l ∧ e ∈ l ∧ (l.length : ℤ) ≤ n ∧ l.Nodup := by
  rcases eq_or_lt_of_le hn with hn2 | hn3
  · have hne : s ≠ e := fun h => hx ⟨h, hn2.symm⟩
    have hlt : s < e := lt_of_le_of_ne hse hne
    refine ⟨[s, e], ?_, ?_, by simp, by simp, ?_, ?_⟩
    · rw [← hn2]; exact evenly_spaced_dates_n2 s e hse
    · simp [hlt]
    · rw [← hn2]; norm_num
    · simp [hne]
  · have h3 : 3 ≤ n := by omega
    set L := (List.range n.toNat).map
      (fun (i : ℕ) => s + pyRound ((i : ℚ) * (((e - s : ℤ) : ℚ) / ((n : ℚ) - 1)))) with hL
    rcases sampled_list_facts s e n h3 hse with ⟨hpw, _⟩
    rcases sampled_mem_endpoints s e n h3 with ⟨hsmem, hemem⟩
    refine ⟨pyDedup [] L, evenly_spaced_dates_eq_map s e n h3 hse,
      pyDedup_pairwise_lt [] hpw, mem_pyDedup hsmem (by simp),
      mem_pyDedup hemem (by simp), ?_, ?_⟩
    · have h1 : (pyDedup [] L).length ≤ L.length := pyDedup_length_le L []
      have h2 : L.length = n.toNat := by simp [hL]
      omega
    · exact List.Pairwise.imp (fun h => ne_of_lt h) (pyDedup_pairwise_lt [] hpw)

/-- Witness for C1 at start 0, end 10, n = 5. -/
theorem evenly_spaced_dates_props_witness :
    ∃ l, evenly_spaced_dates 0 10 5 = Except.ok l ∧ l.Pairwise (· < ·) ∧
      (0 : ℤ) ∈ l ∧ (10 : ℤ) ∈ l ∧ (l.length : ℤ) ≤ 5 ∧ l.Nodup :=
  evenly_spaced_dates_props 0 10 5 (by decide) (by decide) (by decide)

/-- Claim C1 as stated fails at start = end = 0, n = 2: the output is the
duplicated pair `[0, 0]`, neither strictly ascending nor duplicate-free. -/
theorem evenly_spaced_dates_props_cex :
    evenly_spaced_dates 0 0 2 = Except.ok [0, 0] ∧
      ¬ (([0, 0] : List ℤ).Pairwise (· < ·) ∧ ([0, 0] : List ℤ).Nodup) :=
  ⟨rfl, by decide⟩

/-- Claim C2 as stated fails: with start = end = 2025-01-01 and n = 2 the
result is not the single-element list (the short-circuit precedes dedup). -/
theorem evenly_spaced_dates_same_day_cex :
    evenly_spaced_dates (Date.toordinal ⟨2025, 1, 1⟩) (Date.toordinal ⟨2025, 1, 1⟩) 2 ≠
      Except.ok [Date.toordinal ⟨2025, 1, 1⟩] := by
  intro h
  have h2 : evenly_spaced_dates (Date.toordinal ⟨2025, 1, 1⟩) (Date.toordinal ⟨2025, 1, 1⟩) 2 =
      Except.ok [Date.toordinal ⟨2025, 1, 1⟩, Date.toordinal ⟨2025, 1, 1⟩] := rfl
  rw [h2] at h
  simp at h

/-- Claim C2 (amended): `evenly_spaced_dates(2025-01-01, 2025-01-01, 2)`
returns the duplicated two-element list — the `n == 2` short-circuit returns
`[start, end]` before the deduplication step runs, so equal endpoints are not
collapsed. -/
theorem evenly_spaced_dates_same_day :
    evenly_spaced_dates (Date.toordinal ⟨2025, 1, 1⟩) (Date.toordinal ⟨2025, 1, 1⟩) 2 =
      Except.ok [Date.toordinal ⟨2025, 1, 1⟩, Date.toordinal ⟨2025, 1, 1⟩] := rfl

/-- Claim C3: for start ≤ end, n = 2 short-circuits to exactly
`[start, end]`. -/
theorem evenly_spaced_dates_two (s e : ℤ) (hse : s ≤ e) :
    evenly_spaced_dates s e 2 = Except.ok [s, e] :=
  evenly_spaced_dates_n2 s e hse

/-- Witness for C3 at the spec's example 2025-01-01 .. 2025-01-10. -/
theorem evenly_spaced_dates_two_witness :
    evenly_spaced_dates (Date.toordinal ⟨2025, 1, 1⟩) (Date.toordinal ⟨2025, 1, 10⟩) 2 =
      Except.ok [Date.toordinal ⟨2025, 1, 1⟩, Date.toordinal ⟨2025, 1, 10⟩] :=
  evenly_spaced_dates_two _ _ (by decide)

/-- Claim C9: every date the sampler returns lies in the closed interval
`[start, end]`. -/
theorem evenly_spaced_dates_within (s e n : ℤ) (hse : s ≤ e) (hn : 2 ≤ n)
    (l : List ℤ) (hl : evenly_spaced_dates s e n = Except.ok l) :
    ∀ x ∈ l, s ≤ x ∧ x ≤ e := by
  rcases eq_or_lt_of_le hn with hn2 | hn3
  · rw [← hn2, evenly_spaced_dates_n2 s e hse] at hl
    injection hl with hl
    subst hl
    intro x hx
    rcases List.mem_cons.mp hx with rfl | hx
    · omega
    · rcases List.mem_singleton.mp hx with rfl
      omega
  · have h3 : 3 ≤ n := by omega
    rw [evenly_spaced_dates_eq_map s e n h3 hse] at hl
    injection hl with hl
    subst hl
    intro x hx
    exact (sampled_list_facts s e n h3 hse).2 x (pyDedup_subset hx)

/-- Witness for C9 at start 0, end 9, n = 2, member 9. -/
theorem evenly_spaced_dates_within_witness :
    (0 : ℤ) ≤ 9 ∧ (9 : ℤ) ≤ 9 :=
  evenly_spaced_dates_within 0 9 2 (by decide) (by decide) [0, 9] rfl 9 (by decide)

/-- Claim C5: `validate_currency` trims and uppercases; it returns that
normalised string exactly when the input is nonempty and the normalised
string is exactly 3 alphabetic characters, and fails (`InvalidArgument`)
otherwise. -/
theorem validate_currency_spec (code field : String) :
    (validate_currency code field = Except.ok (pyUpper (pyStrip code)) ↔
      code ≠ "" ∧ (pyUpper (pyStrip code)).length = 3 ∧
        pyIsAlpha (pyUpper (pyStrip code)) = true)
    ∧ (∀ r, validate_currency code field = Except.ok r → r = pyUpper (pyStrip code))
    ∧ ((code = "" ∨ (pyUpper (pyStrip code)).length ≠ 3 ∨
          pyIsAlpha (pyUpper (pyStrip code)) = false) →
        ∃ msg, validate_currency code field = Except.error msg) := by
  simp only [validate_currency]
  split_ifs with h1 h2
  · refine ⟨⟨fun h => by simp at h, fun ⟨hne, _⟩ => absurd h1 hne⟩,
      fun r hr => by simp at hr, fun _ => ⟨_, rfl⟩⟩
  · refine ⟨⟨fun h => by simp at h, ?_⟩, fun r hr => by simp at hr, fun _ => ⟨_, rfl⟩⟩
    rintro ⟨-, hlen, halpha⟩
    rcases h2 with h2 | h2
    · exact absurd hlen h2
    · rw [halpha] at h2; exact absurd h2 (by simp)
  · push_neg at h2
    refine ⟨⟨fun _ => ⟨h1, h2.1, ?_⟩, fun _ => rfl⟩, ?_, ?_⟩
    · simpa using h2.2
    · intro r hr
      injection hr with hr
      exact hr.symm
    · rintro (hc | hc | hc)
      · exact absurd hc h1
      · exact absurd hc (by simpa using h2.1)
      · exact absurd hc h2.2

/-- Witness for C5 at the input `" usd "`. -/
theorem validate_currency_spec_witness :
    (validate_currency " usd " "From" = Except.ok (pyUpper (pyStrip " usd ")) ↔
      (" usd " : String) ≠ "" ∧ (pyUpper (pyStrip " usd ")).length = 3 ∧
        pyIsAlpha (pyUpper (pyStrip " usd ")) = true)
    ∧ (∀ r, validate_currency " usd " "From" = Except.ok r → r = pyUpper (pyStrip " usd "))
    ∧ (((" usd " : String) = "" ∨ (pyUpper (pyStrip " usd ")).length ≠ 3 ∨
          pyIsAlpha (pyUpper (pyStrip " usd ")) = false) →
        ∃ msg, validate_currency " usd " "From" = Except.error msg) :=
  validate_currency_spec " usd " "From"

/-- Claim C6: on a JSON-object body whose `error` field is a string, the
client raises `ServiceError` carrying that string exactly when it is
nonempty, and returns the envelope unchanged when it is empty. -/
theorem call_service_service_error (url api_key : String) (r : HttpResponse)
    (fields : List (String × Json)) (s : String)
    (hok : r.ok = true) (hjson : r.json = some (Json.obj fields))
    (herr : dictGet fields "error" = some (Json.str s)) :
    (s ≠ "" → call_service url api_key (.resp r) = .error (.serviceError (Json.str s)))
    ∧ (s = "" → call_service url api_key (.resp r) = .ok (Json.obj fields)) := by
  constructor
  · intro hs
    simp [call_service, hok, hjson, herr, pyTruthy, hs]
  · intro hs
    subst hs
    simp [call_service, hok, hjson, herr, pyTruthy]

/-- Witness for C6 at the spec's example envelope
`{"error":"invalid currency","data":null}`. -/
theorem call_service_service_error_witness :
    call_service "http://localhost:8080/?from=USD&to=EUR" "k"
      (.resp ⟨true, 200, "",
        some (.obj [("error", Json.str "invalid currency"), ("data", Json.null)])⟩)
      = .error (.serviceError (Json.str "invalid currency")) :=
  (call_service_service_error "http://localhost:8080/?from=USD&to=EUR" "k"
    ⟨true, 200, "", some (.obj [("error", Json.str "invalid currency"), ("data", Json.null)])⟩
    [("error", Json.str "invalid currency"), ("data", Json.null)]
    "invalid currency" rfl rfl rfl).1 (by decide)

/-- Claim C10: a JSON-object body with no `error` key, or with a falsy
`error` value, is treated as success and returned for persistence. -/
theorem call_service_falsy_error (url api_key : String) (r : HttpResponse)
    (fields : List (String × Json))
    (hok : r.ok = true) (hjson : r.json = some (Json.obj fields))
    (hfalsy : dictGet fields "error" = none ∨
      ∃ v, dictGet fields "error" = some v ∧ pyTruthy v = false) :
    call_service url api_key (.resp r) = .ok (Json.obj fields) := by
  rcases hfalsy with h | ⟨v, hv, htr⟩
  · simp [call_service, hok, hjson, h]
  · simp [call_service, hok, hjson, hv, htr]

/-- Witness for C10 at an envelope whose `error` value is `null`. -/
theorem call_service_falsy_error_witness :
    call_service "u" "k"
      (.resp ⟨true, 200, "", some (.obj [("error", Json.null), ("data", Json.null)])⟩)
      = .ok (.obj [("error", Json.null), ("data", Json.null)]) :=
  call_service_falsy_error _ _ _ _ rfl rfl (Or.inr ⟨Json.null, rfl, rfl⟩)

/-- In `run_one` either nothing is written, or the pipeline succeeded. -/
theorem run_one_writes (from_cur to_cur date_str base_url api_key : String)
    (warn_range : Bool) (outcome : HttpOutcome) :
    (run_one from_cur to_cur date_str base_url api_key warn_range outcome).snd = [] ∨
    (run_one from_cur to_cur date_str base_url api_key warn_range outcome).fst =
      Except.ok () := by
  cases h1 : validate_currency from_cur "From" with
  | error msg => simp [run_one, h1]
  | ok f =>
    cases h2 : validate_currency to_cur "To" with
    | error msg => simp [run_one, h1, h2]
    | ok t =>
      cases h3 : parse_date date_str "date" with
      | error msg => simp [run_one, h1, h2, h3]
      | ok d =>
        cases h4 : call_service (build_url base_url f t (some date_str)) api_key outcome with
        | error e2 => simp [run_one, h1, h2, h3, h4]
        | ok payload => simp [run_one, h1, h2, h3, h4]

/-- Claim C7: when any stage of the single-query pipeline fails, no output
file is written — the write happens only after `call_service` succeeds. -/
theorem run_one_no_partial_write (from_cur to_cur date_str base_url api_key : String)
    (warn_range : Bool) (outcome : HttpOutcome) (e : Err)
    (h : (run_one from_cur to_cur date_str base_url api_key warn_range outcome).fst =
      Except.error e) :
    (run_one from_cur to_cur date_str base_url api_key warn_range outcome).snd = [] := by
  rcases run_one_writes from_cur to_cur date_str base_url api_key warn_range outcome
    with h2 | h2
  · exact h2
  · rw [h2] at h
    simp at h

/-- Witness for C7 at the spec's failing-service example: the body
`{"error":"invalid currency","data":null}` yields a `ServiceError` and no
write. -/
theorem run_one_no_partial_write_witness :
    (run_one "USD" "EUR" "2025-06-01" "http://localhost:8080" "k" false
      (.resp ⟨true, 200, "",
        some (.obj [("error", Json.str "invalid currency"), ("data", Json.null)])⟩)).snd
      = [] :=
  run_one_no_partial_write "USD" "EUR" "2025-06-01" "http://localhost:8080" "k" false
    (.resp ⟨true, 200, "",
      some (.obj [("error", Json.str "invalid currency"), ("data", Json.null)])⟩)
    (.serviceError (Json.str "invalid currency")) rfl

/-- Claim C8: once the batch arguments parse and the dates sample, the batch
runs the per-date pipeline for every sampled date in order, catching each
per-date failure, and the process exits zero (`.ok`). -/
theorem main_batch_fault_isolation (from_cur to_cur start_date end_date : String)
    (num_dates : ℤ) (base_url api_key : String) (warn_range : Bool)
    (oracle : ℕ → HttpOutcome) (s e : Date) (dates : List ℤ)
    (hs : parse_date start_date "start-date" = Except.ok s)
    (he : parse_date end_date "end-date" = Except.ok e)
    (hd : evenly_spaced_dates s.toordinal e.toordinal num_dates = Except.ok dates) :
    ∃ results,
      main_batch from_cur to_cur start_date end_date num_dates base_url api_key
          warn_range oracle = Except.ok results
      ∧ results.map Prod.fst = dates := by
  refine ⟨(dates.enum).map (fun p =>
    (p.2, run_one from_cur to_cur (format_date p.2) base_url api_key warn_range
      (oracle p.1))), ?_, ?_⟩
  · simp only [main_batch, hs, he, hd]
  · rw [List.map_map]
    have h2 : (Prod.fst ∘ fun p : ℕ × ℤ =>
        (p.2, run_one from_cur to_cur (format_date p.2) base_url api_key warn_range
          (oracle p.1))) = Prod.snd := rfl
    rw [h2]
    exact List.enum_map_snd dates

/-- Witness for C8: a two-date batch where every network call fails still
attempts both dates and exits zero. -/
theorem main_batch_fault_isolation_witness :
    ∃ results,
      main_batch "USD" "EUR" "2025-01-01" "2025-01-02" 2 "http://localhost:8080" "k"
          false (fun _ => .exn "connection refused") = Except.ok results
      ∧ results.map Prod.fst = [Date.toordinal ⟨2025, 1, 1⟩, Date.toordinal ⟨2025, 1, 2⟩] :=
  main_batch_fault_isolation "USD" "EUR" "2025-01-01" "2025-01-02" 2
    "http://localhost:8080" "k" false (fun _ => .exn "connection refused")
    ⟨2025, 1, 1⟩ ⟨2025, 1, 2⟩ [Date.toordinal ⟨2025, 1, 1⟩, Date.toordinal ⟨2025, 1, 2⟩]
    rfl rfl (evenly_spaced_dates_n2 _ _ (by decide))

theorem digitChar_toNat {k : ℕ} (h : k ≤ 9) : (digitChar k).toNat = 48 + k := by
  interval_cases k <;> decide

theorem dv_digitChar {k : ℕ} (h : k ≤ 9) : dv (digitChar k) = k := by
  unfold dv
  rw [digitChar_toNat h]
  omega

theorem isDig_digitChar {k : ℕ} (h : k ≤ 9) : isDig (digitChar k) := by
  constructor <;> rw [digitChar_toNat h] <;> omega

theorem digitChar_dv {c : Char} (h : isDig c) : digitChar (dv c) = c := by
  obtain ⟨hlo, hhi⟩ := h
  unfold digitChar dv
  rw [show 48 + (c.toNat - 48) = c.toNat by omega]
  exact Char.ofNat_toNat c

theorem dv_le_9 {c : Char} (h : isDig c) : dv c ≤ 9 := by
  obtain ⟨hlo, hhi⟩ := h
  unfold dv
  omega

theorem pad4_reconstruct {c1 c2 c3 c4 : Char}
    (h1 : isDig c1) (h2 : isDig c2) (h3 : isDig c3) (h4 : isDig c4) :
    pad4 (1000 * dv c1 + 100 * dv c2 + 10 * dv c3 + dv c4) = [c1, c2, c3, c4] := by
  have b1 := dv_le_9 h1
  have b2 := dv_le_9 h2
  have b3 := dv_le_9 h3
  have b4 := dv_le_9 h4
  unfold pad4
  rw [show (1000 * dv c1 + 100 * dv c2 + 10 * dv c3 + dv c4) / 1000 % 10 = dv c1 by omega,
    show (1000 * dv c1 + 100 * dv c2 + 10 * dv c3 + dv c4) / 100 % 10 = dv c2 by omega,
    show (1000 * dv c1 + 100 * dv c2 + 10 * dv c3 + dv c4) / 10 % 10 = dv c3 by omega,
    show (1000 * dv c1 + 100 * dv c2 + 10 * dv c3 + dv c4) % 10 = dv c4 by omega,
    digitChar_dv h1, digitChar_dv h2, digitChar_dv h3, digitChar_dv h4]

theorem daysInMonth_le (y m : ℕ) : daysInMonth y m ≤ 31 := by
  unfold daysInMonth
  split_ifs <;> omega

theorem monthTok_one {m : ℕ} (h1 : 1 ≤ m) (h9 : m ≤ 9) (tail : List Char) :
    monthTok (digitChar m :: '-' :: tail) = some (m, '-' :: tail) := by
  have ht : (digitChar m).toNat = 48 + m := digitChar_toNat h9
  simp only [monthTok]
  split_ifs with hA hB hC
  · exact absurd hA.2.1 (by decide)
  · exact absurd hB.2.1 (by decide)
  · rw [dv_digitChar h9]
  · exact absurd ⟨by omega, by omega⟩ hC

theorem monthTok_pad {m : ℕ} (h1 : 1 ≤ m) (h9 : m ≤ 9) (rest : List Char) :
    monthTok ('0' :: digitChar m :: rest) = some (m, rest) := by
  have ht : (digitChar m).toNat = 48 + m := digitChar_toNat h9
  simp only [monthTok]
  split_ifs with hA hB hC
  · exact absurd hA.1 (by decide)
  · rw [dv_digitChar h9]
  · exact absurd ⟨rfl, by omega, by omega⟩ hB
  · exact absurd ⟨rfl, by omega, by omega⟩ hB

theorem monthTok_two {m : ℕ} (h10 : 10 ≤ m) (h12 : m ≤ 12) (rest : List Char) :
    monthTok (digitChar (m / 10) :: digitChar (m % 10) :: rest) = some (m, rest) := by
  have e1 : m / 10 = 1 := by omega
  have hm2 : m % 10 ≤ 9 := by omega
  have ht1 : (digitChar (m / 10)).toNat = 49 := by rw [e1]; decide
  have ht2 : (digitChar (m % 10)).toNat = 48 + m % 10 := digitChar_toNat hm2
  simp only [monthTok]
  split_ifs with hA hB hC
  · rw [dv_digitChar hm2, show 10 + m % 10 = m by omega]
  · exact absurd ⟨ht1, by omega, by omega⟩ hA
  · exact absurd ⟨ht1, by omega, by omega⟩ hA
  · exact absurd ⟨ht1, by omega, by omega⟩ hA

theorem dayTok_one {d : ℕ} (h1 : 1 ≤ d) (h9 : d ≤ 9) :
    dayTok [digitChar d] = some (d, []) := by
  have ht : (digitChar d).toNat = 48 + d := digitChar_toNat h9
  simp only [dayTok]
  split_ifs with hA
  · rw [dv_digitChar h9]
  · exact absurd ⟨by omega, by omega⟩ hA

theorem dayTok_pad {d : ℕ} (h1 : 1 ≤ d) (h9 : d ≤ 9) (rest : List Char) :
    dayTok ('0' :: digitChar d :: rest) = some (d, rest) := by
  have ht : (digitChar d).toNat = 48 + d := digitChar_toNat h9
  simp only [dayTok]
  split_ifs with hA hB hC hD
  · exact absurd hA.1 (by decide)
  · exact absurd hB.1.1 (by decide)
  · rw [dv_digitChar h9]
  · exact absurd ⟨rfl, by omega, by omega⟩ hC
  · exact absurd ⟨rfl, by omega, by omega⟩ hC

theorem dayTok_two {d : ℕ} (h10 : 10 ≤ d) (h31 : d ≤ 31) (rest : List Char) :
    dayTok (digitChar (d / 10) :: digitChar (d % 10) :: rest) = some (d, rest) := by
  have hq : d / 10 ≤ 9 := by omega
  have hm2 : d % 10 ≤ 9 := by omega
  have ht1 : (digitChar (d / 10)).toNat = 48 + d / 10 := digitChar_toNat hq
  have ht2 : (digitChar (d % 10)).toNat = 48 + d % 10 := digitChar_toNat hm2
  have hdig2 : isDig (digitChar (d % 10)) := isDig_digitChar hm2
  simp only [dayTok]
  rcases Nat.lt_or_ge d 30 with h30 | h30
  · split_ifs with hA hB hC hD
    · exact absurd hA.1 (by omega)
    · rw [dv_digitChar hq, dv_digitChar hm2, show 10 * (d / 10) + d % 10 = d by omega]
    · exact absurd ⟨⟨by omega, by omega⟩, hdig2⟩ hB
    · exact absurd ⟨⟨by omega, by omega⟩, hdig2⟩ hB
    · exact absurd ⟨⟨by omega, by omega⟩, hdig2⟩ hB
  · split_ifs with hA hB hC hD
    · rw [dv_digitChar hm2, show 30 + d % 10 = d by omega]
    · exact absurd ⟨by omega, by omega, by omega⟩ hA
    · exact absurd ⟨by omega, by omega, by omega⟩ hA
    · exact absurd ⟨by omega, by omega, by omega⟩ hA
    · exact absurd ⟨by omega, by omega, by omega⟩ hA

theorem monthTok_some {cs : List Char} {m : ℕ} {rest : List Char}
    (h : monthTok cs = some (m, rest)) :
    1 ≤ m ∧ m ≤ 12 ∧ ∃ ms, ms ∈ numForms m ∧ cs = ms ++ rest := by
  rcases cs with _ | ⟨c1, _ | ⟨c2, rest'⟩⟩
  · simp [monthTok] at h
  · simp only [monthTok] at h
    split_ifs at h with hc
    · simp only [Option.some.injEq, Prod.mk.injEq] at h
      obtain ⟨rfl, rfl⟩ := h
      have hdig : isDig c1 := ⟨by omega, hc.2⟩
      refine ⟨by unfold dv; omega, by unfold dv; omega, [c1], ?_, by simp⟩
      simp [numForms, show dv c1 < 10 by unfold dv; omega, digitChar_dv hdig]
  · simp only [monthTok] at h
    split_ifs at h with hA hB hC
    · simp only [Option.some.injEq, Prod.mk.injEq] at h
      obtain ⟨rfl, rfl⟩ := h
      have hd2 : isDig c2 := ⟨hA.2.1, by omega⟩
      refine ⟨by omega, by unfold dv; omega, [c1, c2], ?_, by simp⟩
      have e1 : (10 + dv c2) / 10 = 1 := by unfold dv; omega
      have e2 : (10 + dv c2) % 10 = dv c2 := by unfold dv; omega
      have hc1 : c1 = digitChar 1 := by
        have hd1 : isDig c1 := ⟨by omega, by omega⟩
        rw [← digitChar_dv hd1, show dv c1 = 1 by unfold dv; omega]
      simp [numForms, show ¬(10 + dv c2 < 10) by omega, e1, e2, digitChar_dv hd2, hc1]
    · simp only [Option.some.injEq, Prod.mk.injEq] at h
      obtain ⟨rfl, rfl⟩ := h
      have hd2 : isDig c2 := ⟨by omega, hB.2.2⟩
      have hc1 : c1 = '0' := by
        have hd1 : isDig c1 := ⟨by omega, by omega⟩
        rw [← digitChar_dv hd1, show dv c1 = 0 by unfold dv; omega]
        decide
      refine ⟨by unfold dv; omega, by unfold dv; omega, [c1, c2], ?_, by simp⟩
      simp [numForms, show dv c2 < 10 by unfold dv; omega, digitChar_dv hd2, hc1]
    · simp only [Option.some.injEq, Prod.mk.injEq] at h
      obtain ⟨rfl, rfl⟩ := h
      have hd1 : isDig c1 := ⟨by omega, hC.2⟩
      refine ⟨by unfold dv; omega, by unfold dv; omega, [c1], ?_, by simp⟩
      simp [numForms, show dv c1 < 10 by unfold dv; omega, digitChar_dv hd1]

theorem dayTok_some {cs : List Char} {d : ℕ} {rest : List Char}
    (h : dayTok cs = some (d, rest)) :
    1 ≤ d ∧ d ≤ 31 ∧ ∃ ds_, ds_ ∈ numForms d ∧ cs = ds_ ++ rest := by
  rcases cs with _ | ⟨c1, _ | ⟨c2, rest'⟩⟩
  · simp [dayTok] at h
  · simp only [dayTok] at h
    split_ifs at h with hc
    · simp only [Option.some.injEq, Prod.mk.injEq] at h
      obtain ⟨rfl, rfl⟩ := h
      have hdig : isDig c1 := ⟨by omega, hc.2⟩
      refine ⟨by unfold dv; omega, by unfold dv; omega, [c1], ?_, by simp⟩
      simp [numForms, show dv c1 < 10 by unfold dv; omega, digitChar_dv hdig]
  · simp only [dayTok] at h
    split_ifs at h with hA hB hC hD
    · simp only [Option.some.injEq, Prod.mk.injEq] at h
      obtain ⟨rfl, rfl⟩ := h
      have hd2 : isDig c2 := ⟨hA.2.1, by omega⟩
      refine ⟨by omega, by unfold dv; omega, [c1, c2], ?_, by simp⟩
      have e1 : (30 + dv c2) / 10 = 3 := by unfold dv; omega
      have e2 : (30 + dv c2) % 10 = dv c2 := by unfold dv; omega
      have hc1 : c1 = digitChar 3 := by
        have hd1 : isDig c1 := ⟨by omega, by omega⟩
        rw [← digitChar_dv hd1, show dv c1 = 3 by unfold dv; omega]
      simp [numForms, show ¬(30 + dv c2 < 10) by omega, e1, e2, digitChar_dv hd2, hc1]
    · obtain ⟨hB1, hB2⟩ := hB
      obtain ⟨h2l, h2r⟩ := hB2
      simp only [Option.some.injEq, Prod.mk.injEq] at h
      obtain ⟨rfl, rfl⟩ := h
      have hd2 : isDig c2 := ⟨h2l, h2r⟩
      have hd1 : isDig c1 := ⟨by omega, by omega⟩
      refine ⟨by unfold dv; omega, by unfold dv; omega, [c1, c2], ?_, by simp⟩
      have e1 : (10 * dv c1 + dv c2) / 10 = dv c1 := by unfold dv; omega
      have e2 : (10 * dv c1 + dv c2) % 10 = dv c2 := by unfold dv; omega
      simp [numForms, show ¬(10 * dv c1 + dv c2 < 10) by unfold dv; omega, e1, e2,
        digitChar_dv hd1, digitChar_dv hd2]
    · simp only [Option.some.injEq, Prod.mk.injEq] at h
      obtain ⟨rfl, rfl⟩ := h
      have hd2 : isDig c2 := ⟨by omega, hC.2.2⟩
      have hc1 : c1 = '0' := by
        have hd1 : isDig c1 := ⟨by omega, by omega⟩
        rw [← digitChar_dv hd1, show dv c1 = 0 by unfold dv; omega]
        decide
      refine ⟨by unfold dv; omega, by unfold dv; omega, [c1, c2], ?_, by simp⟩
      simp [numForms, show dv c2 < 10 by unfold dv; omega, digitChar_dv hd2, hc1]
    · simp only [Option.some.injEq, Prod.mk.injEq] at h
      obtain ⟨rfl, rfl⟩ := h
      have hd1 : isDig c1 := ⟨by omega, hD.2⟩
      refine ⟨by unfold dv; omega, by unfold dv; omega, [c1], ?_, by simp⟩
      simp [numForms, show dv c1 < 10 by unfold dv; omega, digitChar_dv hd1]

theorem monthTok_forms {m : ℕ} (h1 : 1 ≤ m) (h12 : m ≤ 12) {ms : List Char}
    (hms : ms ∈ numForms m) (tail : List Char) :
    monthTok (ms ++ '-' :: tail) = some (m, '-' :: tail) := by
  by_cases h10 : m < 10
  · have hforms : ms = [digitChar m] ∨ ms = ['0', digitChar m] := by
      simpa [numForms, h10] using hms
    rcases hforms with rfl | rfl
    · exact monthTok_one h1 (by omega) tail
    · exact monthTok_pad h1 (by omega) ('-' :: tail)
  · have hforms : ms = [digitChar (m / 10), digitChar (m % 10)] := by
      simpa [numForms, h10] using hms
    subst hforms
    exact monthTok_two (by omega) h12 ('-' :: tail)

theorem dayTok_forms {d : ℕ} (h1 : 1 ≤ d) (h31 : d ≤ 31) {ds_ : List Char}
    (hds : ds_ ∈ numForms d) :
    dayTok ds_ = some (d, []) := by
  by_cases h10 : d < 10
  · have hforms : ds_ = [digitChar d] ∨ ds_ = ['0', digitChar d] := by
      simpa [numForms, h10] using hds
    rcases hforms with rfl | rfl
    · exact dayTok_one h1 (by omega)
    · exact dayTok_pad h1 (by omega) []
  · have hforms : ds_ = [digitChar (d / 10), digitChar (d % 10)] := by
      simpa [numForms, h10] using hds
    subst hforms
    exact dayTok_two (by omega) h31 []

theorem strptimeYmd_render (c1 c2 c3 c4 : Char)
    (hd1 : isDig c1) (hd2 : isDig c2) (hd3 : isDig c3) (hd4 : isDig c4)
    {m d : ℕ} {ms ds_ : List Char}
    (h1m : 1 ≤ m) (h12 : m ≤ 12) (h1d : 1 ≤ d) (h31 : d ≤ 31)
    (hms : ms ∈ numForms m) (hds : ds_ ∈ numForms d) :
    strptimeYmd (c1 :: c2 :: c3 :: c4 :: '-' :: (ms ++ '-' :: ds_)) =
      some (1000 * dv c1 + 100 * dv c2 + 10 * dv c3 + dv c4, m, d) := by
  have hmt := monthTok_forms h1m h12 hms ds_
  have hdt := dayTok_forms h1d h31 hds
  simp [strptimeYmd, hmt, hdt, hd1, hd2, hd3, hd4]

theorem strptimeYmd_some_iff (cs : List Char) (y m d : ℕ) :
    strptimeYmd cs = some (y, m, d) ↔
      1 ≤ m ∧ m ≤ 12 ∧ 1 ≤ d ∧ d ≤ 31 ∧ y ≤ 9999 ∧
      ∃ ms ds_, ms ∈ numForms m ∧ ds_ ∈ numForms d ∧
        cs = pad4 y ++ '-' :: (ms ++ '-' :: ds_) := by
  constructor
  · intro h
    rcases cs with _ | ⟨c1, cs⟩
    · simp [strptimeYmd] at h
    rcases cs with _ | ⟨c2, cs⟩
    · simp [strptimeYmd] at h
    rcases cs with _ | ⟨c3, cs⟩
    · simp [strptimeYmd] at h
    rcases cs with _ | ⟨c4, cs⟩
    · simp [strptimeYmd] at h
    rcases cs with _ | ⟨c5, rest⟩
    · simp [strptimeYmd] at h
    simp only [strptimeYmd] at h
    split_ifs at h with hcond
    obtain ⟨hd1, hd2, hd3, hd4, rfl⟩ := hcond
    rcases hm : monthTok rest with _ | ⟨⟨mv, rest1⟩⟩
    · rw [hm] at h; simp at h
    rw [hm] at h
    rcases rest1 with _ | ⟨c6, rest2⟩
    · simp at h
    by_cases hc6 : c6 = '-'
    · subst hc6
      replace h : (match dayTok rest2 with
          | some (d, []) => some (1000 * dv c1 + 100 * dv c2 + 10 * dv c3 + dv c4, mv, d)
          | _ => none) = some (y, m, d) := h
      rcases hdk : dayTok rest2 with _ | ⟨⟨dvv, rest3⟩⟩
      · rw [hdk] at h; simp at h
      rw [hdk] at h
      rcases rest3 with _ | ⟨c7, rest4⟩
      · replace h : some (1000 * dv c1 + 100 * dv c2 + 10 * dv c3 + dv c4, mv, dvv) =
          some (y, m, d) := h
        simp only [Option.some.injEq, Prod.mk.injEq] at h
        obtain ⟨rfl, rfl, rfl⟩ := h
        obtain ⟨h1m, h12, ms, hms, hrest⟩ := monthTok_some hm
        obtain ⟨h1d, h31, ds_, hds2, hrest2⟩ := dayTok_some hdk
        rw [List.append_nil] at hrest2
        obtain ⟨a1, b1⟩ := hd1
        obtain ⟨a2, b2⟩ := hd2
        obtain ⟨a3, b3⟩ := hd3
        obtain ⟨a4, b4⟩ := hd4
        refine ⟨h1m, h12, h1d, h31, by unfold dv; omega, ms, ds_, hms, hds2, ?_⟩
        rw [pad4_reconstruct ⟨a1, b1⟩ ⟨a2, b2⟩ ⟨a3, b3⟩ ⟨a4, b4⟩]
        rw [hrest, hrest2]
        simp
      · replace h : (none : Option (ℕ × ℕ × ℕ)) = some (y, m, d) := h
        simp at h
    · replace h : (if c6 = '-' then
          (match dayTok rest2 with
            | some (d, []) => some (1000 * dv c1 + 100 * dv c2 + 10 * dv c3 + dv c4, mv, d)
            | _ => none)
          else none) = some (y, m, d) := h
      rw [if_neg hc6] at h
      simp at h
  · rintro ⟨h1m, h12, h1d, h31, h9999, ms, ds_, hms, hds, rfl⟩
    have hren := strptimeYmd_render
      (digitChar (y / 1000 % 10)) (digitChar (y / 100 % 10))
      (digitChar (y / 10 % 10)) (digitChar (y % 10))
      (isDig_digitChar (by omega)) (isDig_digitChar (by omega))
      (isDig_digitChar (by omega)) (isDig_digitChar (by omega))
      h1m h12 h1d h31 hms hds
    rw [show pad4 y ++ '-' :: (ms ++ '-' :: ds_) =
      digitChar (y / 1000 % 10) :: digitChar (y / 100 % 10) :: digitChar (y / 10 % 10) ::
        digitChar (y % 10) :: '-' :: (ms ++ '-' :: ds_) from rfl]
    rw [hren, dv_digitChar (by omega : y / 1000 % 10 ≤ 9),
      dv_digitChar (by omega : y / 100 % 10 ≤ 9),
      dv_digitChar (by omega : y / 10 % 10 ≤ 9),
      dv_digitChar (by omega : y % 10 ≤ 9),
      show 1000 * (y / 1000 % 10) + 100 * (y / 100 % 10) + 10 * (y / 10 % 10) + y % 10 = y
        by omega]

theorem validDate_iff {y m d : ℕ} : validDate y m d = true ↔
    (1 ≤ y ∧ y ≤ 9999 ∧ 1 ≤ m ∧ m ≤ 12 ∧ 1 ≤ d ∧ d ≤ daysInMonth y m) := by
  simp [validDate, and_assoc]

/-- Claim C4 as stated fails: `parse_date` accepts `2025-1-1`, which is not in
strict zero-padded `YYYY-MM-DD` format (CPython's `%m`/`%d` also match single
digits). -/
theorem parse_date_strict_cex :
    parse_date "2025-1-1" "date" = Except.ok ⟨2025, 1, 1⟩ ∧
      strictYMD "2025-1-1" = false :=
  ⟨rfl, rfl⟩

/-- Claim C4 (amended): `parse_date(s, field)` succeeds exactly when `s` is a
four-digit (zero-padded) year, a dash, the month written with one digit or
zero-padded to two, a dash, and the day likewise, such that year-month-day is
a valid calendar date with year in 1..9999; on every other string it fails
with the `InvalidArgument` message. -/
theorem parse_date_ok_iff (s field : String) :
    (∃ dt, parse_date s field = Except.ok dt) ↔
      ∃ y m d ms ds_, validDate y m d = true ∧ ms ∈ numForms m ∧ ds_ ∈ numForms d ∧
        s.data = pad4 y ++ '-' :: (ms ++ '-' :: ds_) := by
  constructor
  · rintro ⟨dt, hdt⟩
    rcases hp : strptimeYmd s.data with _ | ⟨⟨y, m, d⟩⟩
    · simp [parse_date, hp] at hdt
    · simp only [parse_date, hp] at hdt
      split_ifs at hdt with hv
      · obtain ⟨h1m, h12, h1d, h31, h99, ms, ds_, hms, hds2, hcs⟩ :=
          (strptimeYmd_some_iff s.data y m d).mp hp
        exact ⟨y, m, d, ms, ds_, hv, hms, hds2, hcs⟩
  · rintro ⟨y, m, d, ms, ds_, hv, hms, hds2, hcs⟩
    obtain ⟨hy1, hy2, h1m, h12, h1d, hdm⟩ := validDate_iff.mp hv
    have h31 : d ≤ 31 := le_trans hdm (daysInMonth_le y m)
    have hp : strptimeYmd s.data = some (y, m, d) :=
      (strptimeYmd_some_iff s.data y m d).mpr
        ⟨h1m, h12, h1d, h31, hy2, ms, ds_, hms, hds2, hcs⟩
    exact ⟨⟨y, m, d⟩, by simp [parse_date, hp, hv]⟩
